import Mathlib

/-!
Shallow embedding of `criterion.py` (loss functions for an image-synthesis
training pipeline): masked MSE / L1 losses, VGG feature-loss combination,
`normalize_minus_one_to_one`, and the `Criterion` module dispatch.

Tensors are embedded as a shape (list of dimension sizes) together with a
total function from flat (row-major) indices to values.  Values are exact
rationals extended with a single `nan` point that models every non-finite
IEEE float (NaN or ±Inf); division by zero produces `nan`, and `nan`
propagates through arithmetic, exactly as non-finite floats do in the
PyTorch operations used by the source.  External functions that the file
calls but does not define (the pretrained VGG feature stacks, the LPIPS
network, bilinear/area interpolation, `crop_boundary` from `core.utils`)
are passed in as an explicit environment.
-/

namespace Crit

/-- A float value: an exact rational, or `nan`, the collapsed image of every
non-finite IEEE float (NaN and ±Inf). -/
inductive Val where
  | fin : ℚ → Val
  | nan : Val
deriving DecidableEq

def Val.add : Val → Val → Val
  | .fin a, .fin b => .fin (a + b)
  | _, _ => .nan

def Val.sub : Val → Val → Val
  | .fin a, .fin b => .fin (a - b)
  | _, _ => .nan

def Val.mul : Val → Val → Val
  | .fin a, .fin b => .fin (a * b)
  | _, _ => .nan

/-- Absolute value. -/
def Val.vabs : Val → Val
  | .fin a => .fin |a|
  | .nan => .nan

/-- Float division: division by zero yields a non-finite float
(`0/0 = NaN`, `q/0 = ±Inf`), collapsed to `nan` here. -/
def Val.fdiv : Val → Val → Val
  | .fin a, .fin b => if b = 0 then .nan else .fin (a / b)
  | _, _ => .nan

def Val.vmin : Val → Val → Val
  | .fin a, .fin b => .fin (min a b)
  | _, _ => .nan

def Val.vmax : Val → Val → Val
  | .fin a, .fin b => .fin (max a b)
  | _, _ => .nan

def Val.isFin : Val → Bool
  | .fin _ => true
  | .nan => false

/-- The rational carried by a finite value (0 for `nan`). -/
def Val.qval : Val → ℚ
  | .fin q => q
  | .nan => 0

/-- A tensor: a shape and a total map from flat row-major indices to values. -/
structure Tensor where
  shape : List Nat
  data : Nat → Val

def Tensor.numel (t : Tensor) : Nat := t.shape.prod

/-- All entries of the tensor's data map are finite floats. -/
def finData (t : Tensor) : Prop := ∀ i, (t.data i).isFin = true

/-- Row-major multi-index of flat index `i` in shape `s`. -/
def multiIdx : List Nat → Nat → List Nat
  | [], _ => []
  | _ :: ds, i => (i / ds.prod) :: multiIdx ds (i % ds.prod)

/-- Flat row-major index of multi-index `js` in shape `s`. -/
def linIdx : List Nat → List Nat → Nat
  | _ :: ds, j :: js => j * ds.prod + linIdx ds js
  | _, _ => 0

/-- PyTorch broadcast of two shapes: right-align, pad with 1s, and take the
size-wise maximum (the result shape when the shapes are compatible). -/
def bcast (s1 s2 : List Nat) : List Nat :=
  let n := max s1.length s2.length
  List.zipWith max (List.replicate (n - s1.length) 1 ++ s1)
    (List.replicate (n - s2.length) 1 ++ s2)

/-- Read tensor `t` at a (possibly higher-rank) broadcast multi-index:
drop the extra leading coordinates and clamp coordinates of size-1 axes. -/
def readB (t : Tensor) (idx : List Nat) : Val :=
  let idx1 := idx.drop (idx.length - t.shape.length)
  let idx2 := List.zipWith (fun d j => if d = 1 then 0 else j) t.shape idx1
  t.data (linIdx t.shape idx2)

/-- Elementwise binary operation with PyTorch broadcasting. -/
def binop (f : Val → Val → Val) (a b : Tensor) : Tensor :=
  let s := bcast a.shape b.shape
  ⟨s, fun i => f (readB a (multiIdx s i)) (readB b (multiIdx s i))⟩

/-- The list of entries of the tensor, in flat order. -/
def valsOf (t : Tensor) : List Val := (List.range t.numel).map t.data

/-- `torch.sum`: sum of all entries. -/
def tSum (t : Tensor) : Val := (valsOf t).foldl Val.add (Val.fin 0)

/-- `tensor.min()`: minimum entry (`nan` for an empty tensor, where torch
raises). -/
def tMin (t : Tensor) : Val :=
  match valsOf t with
  | [] => Val.nan
  | v :: vs => vs.foldl Val.vmin v

/-- `tensor.max()`: maximum entry. -/
def tMax (t : Tensor) : Val :=
  match valsOf t with
  | [] => Val.nan
  | v :: vs => vs.foldl Val.vmax v

/-- A 0-dimensional (scalar) tensor. -/
def scalarT (v : Val) : Tensor := ⟨[], fun _ => v⟩

/-- A 0-dimensional constant tensor holding the rational `c`. -/
def constT (c : ℚ) : Tensor := ⟨[], fun _ => Val.fin c⟩

/-- `tensor.item()`: the single entry when `numel = 1`; `none` models the
exception raised on any other element count. -/
def item (t : Tensor) : Option Val :=
  if t.numel = 1 then some (t.data 0) else none

/-- `shape[-2:]`: the last two (spatial) dimension sizes. -/
def last2 (s : List Nat) : List Nat := s.drop (s.length - 2)

/-- `F.interpolate(m, size=hw)` with the default `nearest` mode: the output
keeps the leading dimensions and takes the spatial sizes from `hw`; output
pixel `(j_h, j_w)` reads input pixel `(⌊j_h·H_in/H_out⌋, ⌊j_w·W_in/W_out⌋)`. -/
def interpNearest (m : Tensor) (hw : List Nat) : Tensor :=
  let so := m.shape.take (m.shape.length - 2) ++ hw
  ⟨so, fun i =>
    let idx := multiIdx so i
    let front := idx.take (idx.length - 2)
    let back := List.zipWith (fun j p => j * Prod.fst p / Prod.snd p)
      (idx.drop (idx.length - 2)) ((last2 m.shape).zip hw)
    m.data (linIdx m.shape (front ++ back))⟩

/-- Elementwise squared error, `F.mse_loss(pred, gt, reduction='none')`. -/
def sqErr (pred gt : Tensor) : Tensor :=
  binop (fun a b => (a.sub b).mul (a.sub b)) pred gt

/-- Elementwise absolute error, `F.l1_loss(pred, gt, reduction='none')`. -/
def absErr (pred gt : Tensor) : Tensor :=
  binop (fun a b => (a.sub b).vabs) pred gt

/-- `F.mse_loss(pred, gt)` with the default mean reduction. -/
def mse_loss (pred gt : Tensor) : Val :=
  Val.fdiv (tSum (sqErr pred gt)) (Val.fin ((sqErr pred gt).numel : ℚ))

/-- `F.l1_loss(pred, gt)` with the default mean reduction. -/
def l1_loss (pred gt : Tensor) : Val :=
  Val.fdiv (tSum (absErr pred gt)) (Val.fin ((absErr pred gt).numel : ℚ))

/-- `masked_mse_loss` from `criterion.py`. -/
def masked_mse_loss (pred gt : Tensor) (mask : Option Tensor) : Val :=
  match mask with
  | none => mse_loss pred gt
  | some m =>
    let sum_loss := sqErr pred gt
    let ndim : Nat := sum_loss.shape.getD 1 0
    Val.fdiv (tSum (binop Val.mul sum_loss m))
      (((Val.fin (ndim : ℚ)).mul (tSum m)).add (Val.fin (1 / 100000000)))

/-- `masked_l1_loss` from `criterion.py`: the mask is resized (nearest
interpolation) to the prediction's spatial size when they differ. -/
def masked_l1_loss (pred gt : Tensor) (mask : Option Tensor) : Val :=
  match mask with
  | none => l1_loss pred gt
  | some m0 =>
    let m := if last2 m0.shape ≠ last2 pred.shape
      then interpNearest m0 (last2 pred.shape) else m0
    let sum_loss := absErr pred gt
    let ndim : Nat := sum_loss.shape.getD 1 0
    Val.fdiv (tSum (binop Val.mul sum_loss m))
      (((Val.fin (ndim : ℚ)).mul (tSum m)).add (Val.fin (1 / 100000000)))

/-- The `[1,3,1,1]`-shaped channel-mean tensor of `VGGLoss.preprocess`. -/
def meanT : Tensor := ⟨[1, 3, 1, 1], fun i => Val.fin ([0.485, 0.456, 0.406].getD i 0)⟩

/-- The `[1,3,1,1]`-shaped channel-std tensor of `VGGLoss.preprocess`. -/
def stdT : Tensor := ⟨[1, 3, 1, 1], fun i => Val.fin ([0.229, 0.224, 0.225].getD i 0)⟩

/-- `VGGLoss.preprocess`: channel normalization `(x - mean) / std`. -/
def preprocess (x : Tensor) : Tensor :=
  binop Val.fdiv (binop Val.sub x meanT) stdT

/-- External operations the source calls but does not define: `crop_boundary`
(imported from `core.utils`, not in this repository's sources), the LPIPS
network, `F.interpolate` in bilinear/area mode, and the pretrained VGG
feature stacks. -/
structure TorchEnv where
  crop_boundary : Tensor → ℚ → Tensor
  lpipsFn : Tensor → Tensor → Tensor
  interpBilinear : Tensor → Nat → Tensor
  interpArea : Tensor → Nat → Tensor
  vgg16feats : Tensor → List Tensor
  vgg19feats : Tensor → List Tensor

/-- The documented interface of `lpips.LPIPS.forward`: one scalar distance
per batch element, returned with shape `(N, 1, 1, 1)`. -/
def LPIPSLike (f : Tensor → Tensor → Tensor) : Prop :=
  ∀ a b, (f a b).shape = [a.shape.getD 0 0, 1, 1, 1]

/-- The per-level weights chosen in `VGGLoss.__init__` ([] for a model name
that is neither branch, where the attribute is left unset). -/
def vggWeights (model : String) : List ℚ :=
  if model = "vgg16" then [1/16, 1/8, 1/4, 1]
  else if model = "vgg19" then [1/32, 1/16, 1/8, 1/4, 1]
  else []

/-- The feature stack chosen in `VGGLoss.__init__` (Vgg16 or Vgg19 slices;
an empty stack for a model name that is neither branch, where the attribute
is left unset). -/
def vggFeats (env : TorchEnv) (model : String) : Tensor → List Tensor :=
  if model = "vgg16" then env.vgg16feats
  else if model = "vgg19" then env.vgg19feats
  else fun _ => []

/-- `min(shape[-2:])` for the mask-interpolation mode choice. -/
def minLast2 (s : List Nat) : Nat :=
  match last2 s with
  | [a, b] => min a b
  | _ => 0

/-- `VGGLoss.forward`: preprocess both images, resize the optional mask to
`size` (bilinear when `min(mask.shape[-2:]) <= size`, else area), then
accumulate the masked L1 loss of the preprocessed images plus the weighted
masked L1 losses of the VGG feature levels. -/
def VGGLoss.forward (env : TorchEnv) (model : String) (x y : Tensor)
    (mask : Option Tensor) (size : Nat) : Val :=
  let x2 := preprocess x
  let y2 := preprocess y
  let m2 := mask.map fun m =>
    if minLast2 m.shape ≤ size then env.interpBilinear m size else env.interpArea m size
  let xs := vggFeats env model x2
  let ys := vggFeats env model y2
  let ws := vggWeights model
  (List.range xs.length).foldl
    (fun loss i =>
      loss.add ((Val.fin (ws.getD i 0)).mul
        (masked_l1_loss (xs.getD i x2) (ys.getD i y2) m2)))
    (masked_l1_loss x2 y2 m2)

/-- The specification's reading of `VGGLoss.forward`: the masked L1 loss of
the preprocessed images plus the sum over feature levels `i` of
`weights[i]` times the masked L1 loss of the level-`i` feature maps. -/
def vggLossSpec (env : TorchEnv) (model : String) (x y : Tensor)
    (mask : Option Tensor) (size : Nat) : Val :=
  let x2 := preprocess x
  let y2 := preprocess y
  let m2 := mask.map fun m =>
    if minLast2 m.shape ≤ size then env.interpBilinear m size else env.interpArea m size
  let xs := vggFeats env model x2
  let ys := vggFeats env model y2
  (masked_l1_loss x2 y2 m2).add
    (((List.range xs.length).map fun i =>
        (Val.fin ((vggWeights model).getD i 0)).mul
          (masked_l1_loss (xs.getD i x2) (ys.getD i y2) m2)).foldr Val.add (Val.fin 0))

/-- `normalize_minus_one_to_one`: `2 * (x - x.min()) / (x.max() - x.min()) - 1`. -/
def normalize_minus_one_to_one (x : Tensor) : Tensor :=
  let x_min := tMin x
  let x_max := tMax x
  ⟨x.shape, fun i =>
    (((Val.fin 2).mul ((x.data i).sub x_min)).fdiv (x_max.sub x_min)).sub (Val.fin 1)⟩

/-- An `nn.Parameter`: its weight data and its `requires_grad` flag. -/
structure Param where
  data : List ℚ
  requires_grad : Bool
deriving DecidableEq

/-- Set `requires_grad = False` on every parameter. -/
def setNoGrad (ps : List Param) : List Param :=
  ps.map fun p => { p with requires_grad := false }

/-- The parameters `Vgg16.__init__` registers: the pretrained features
`features[0:4] ++ features[4:9] ++ features[9:16] ++ features[16:23]`
distributed over the four slice modules (given per-layer parameter lists). -/
def Vgg16.sliceParams (features : List (List Param)) : List Param :=
  (features.take 4 ++ (features.drop 4).take 5 ++ (features.drop 9).take 7
    ++ (features.drop 16).take 7).flatten

/-- `Vgg16.__init__`: register the pretrained slices, then set
`requires_grad = False` on every parameter. -/
def Vgg16.params (features : List (List Param)) : List Param :=
  setNoGrad (Vgg16.sliceParams features)

/-- The parameters `Vgg19.__init__` registers: the pretrained features
`features[0:2] ++ features[2:7] ++ features[7:12] ++ features[12:21] ++
features[21:30]` distributed over the five slice modules. -/
def Vgg19.sliceParams (features : List (List Param)) : List Param :=
  (features.take 2 ++ (features.drop 2).take 5 ++ (features.drop 7).take 5
    ++ (features.drop 12).take 9 ++ (features.drop 21).take 9).flatten

/-- `Vgg19.__init__`: register the pretrained slices; when `requires_grad`
is `False`, set `requires_grad = False` on every parameter. -/
def Vgg19.params (features : List (List Param)) (requires_grad : Bool) : List Param :=
  if requires_grad then Vgg19.sliceParams features
  else setNoGrad (Vgg19.sliceParams features)

/-- The fields of the `args` object that `Criterion.__init__` reads. -/
structure Args where
  local_rank : Nat
  boundary_crop_ratio : ℚ
  loss_mode : String

/-- The loss family selected by `Criterion.__init__` into `self.loss_func`. -/
inductive LossChoice where
  | vggc : String → LossChoice
  | lpipsc : LossChoice
  | msec : LossChoice
  | l1c : LossChoice
deriving DecidableEq

/-- `p` is a contiguous substring of `s` (Python's `p in s` on strings). -/
def startsWithL : List Char → List Char → Bool
  | [], _ => true
  | _ :: _, [] => false
  | a :: as, b :: bs => a = b && startsWithL as bs

def containsSub (p : List Char) : List Char → Bool
  | [] => p.isEmpty
  | c :: rest => startsWithL p (c :: rest) || containsSub p rest

def occursIn (p s : String) : Bool := containsSub p.data s.data

/-- `Criterion.__init__`'s dispatch on `args.loss_mode`; `Except.error ()`
models the `raise NotImplementedError`. -/
def Criterion.initChoice (args : Args) : Except Unit LossChoice :=
  if occursIn "vgg" args.loss_mode then .ok (.vggc args.loss_mode)
  else if args.loss_mode = "lpips" then .ok .lpipsc
  else if args.loss_mode = "mse" then .ok .msec
  else if args.loss_mode = "l1" then .ok .l1c
  else .error ()

/-- Python-dict assignment `d[k] = v`: overwrite in place, else append. -/
def dinsert (d : List (String × Val)) (k : String) (v : Val) : List (String × Val) :=
  if d.any (fun p => p.1 = k) then d.map (fun p => if p.1 = k then (k, v) else p)
  else d ++ [(k, v)]

/-- Python-dict key membership `k in d`. -/
def dmem (k : String) (d : List (String × Val)) : Bool :=
  d.any (fun p => p.1 = k)

/-- The boundary-crop step at the top of `Criterion.forward`: applied only
when `crop_ratio > 0` (`crop_boundary` itself lives in `core.utils`). -/
def cropBound (env : TorchEnv) (args : Args) (t : Tensor) : Tensor :=
  if args.boundary_crop_ratio > 0 then env.crop_boundary t args.boundary_crop_ratio else t

/-- `2 * x - 1`, the range normalization applied before the LPIPS call. -/
def lpipsInput (t : Tensor) : Tensor :=
  binop Val.sub (binop Val.mul (constT 2) t) (constT 1)

/-- `Criterion.forward`: crop the boundary when `crop_ratio > 0`; in
`'lpips'` mode run LPIPS on `2*x - 1`-normalized images, log it, and add
the masked L1 loss of the unnormalized images exactly when
`is_multi_view == 0`; in any other mode apply the selected loss function.
`none` models an exception (here: `.item()` on a non-1-element tensor, or
calling the LPIPS module with a mask argument, which is unreachable after
a successful `__init__`). -/
def Criterion.forward (env : TorchEnv) (args : Args) (lf : LossChoice)
    (pred target : Tensor) (mask : Option Tensor) (is_multi_view : Int)
    (_res_dict : List (String × Val)) (scalar_to_log : List (String × Val))
    (_step : Nat) : Option (Tensor × List (String × Val)) :=
  let pred2 := cropBound env args pred
  let target2 := cropBound env args target
  if args.loss_mode = "lpips" then
    let pred_normed := lpipsInput pred2
    let target_normed := lpipsInput target2
    let loss := env.lpipsFn pred_normed target_normed
    match item loss with
    | none => none
    | some v =>
      let log1 := dinsert scalar_to_log "loss_perceptual" v
      if is_multi_view = 0 then
        let l1v := masked_l1_loss pred2 target2 mask
        some (binop Val.add loss (scalarT l1v), dinsert log1 "loss_l1" l1v)
      else
        some (loss, log1)
  else
    match lf with
    | .vggc model => some (scalarT (VGGLoss.forward env model pred2 target2 mask 224), scalar_to_log)
    | .lpipsc => none
    | .msec => some (scalarT (masked_mse_loss pred2 target2 mask), scalar_to_log)
    | .l1c => some (scalarT (masked_l1_loss pred2 target2 mask), scalar_to_log)

/-! ### Basic lemmas about the embedded operations -/

lemma Val.add_assoc (a b c : Val) : (a.add b).add c = a.add (b.add c) := by
  cases a <;> cases b <;> cases c <;> simp [Val.add]
  ring

lemma Val.add_fin_zero (v : Val) : v.add (Val.fin 0) = v := by
  cases v <;> simp [Val.add]

lemma zipWith_max_self (s : List Nat) : List.zipWith max s s = s := by
  induction s with
  | nil => rfl
  | cons a t ih => simp [List.zipWith, ih]

lemma bcast_self (s : List Nat) : bcast s s = s := by
  simp [bcast, zipWith_max_self]

lemma binop_shape (f : Val → Val → Val) (a b : Tensor) :
    (binop f a b).shape = bcast a.shape b.shape := rfl

lemma sqErr_shape_of_eq {pred gt : Tensor} (h : gt.shape = pred.shape) :
    (sqErr pred gt).shape = pred.shape := by
  show bcast pred.shape gt.shape = pred.shape
  rw [h, bcast_self]

lemma absErr_shape_of_eq {pred gt : Tensor} (h : gt.shape = pred.shape) :
    (absErr pred gt).shape = pred.shape := by
  show bcast pred.shape gt.shape = pred.shape
  rw [h, bcast_self]

lemma last2_length {s : List Nat} (h : 2 ≤ s.length) : (last2 s).length = 2 := by
  simp only [last2, List.length_drop]
  omega

lemma interpNearest_last2 (m : Tensor) (hw : List Nat) (h2 : hw.length = 2) :
    last2 (interpNearest m hw).shape = hw := by
  show last2 (m.shape.take (m.shape.length - 2) ++ hw) = hw
  have hlen : (m.shape.take (m.shape.length - 2)).length = m.shape.length - 2 := by
    simp [List.length_take]
  unfold last2
  rw [List.length_append, hlen, h2]
  have harith : m.shape.length - 2 + 2 - 2 = (m.shape.take (m.shape.length - 2)).length := by
    rw [hlen]
    omega
  rw [harith, List.drop_left]

/-! ### C2: masked_mse_loss is optionally masked -/

/-- C2. `masked_mse_loss` without a mask is the unweighted mean squared
error (sum of squared errors over the element count); with a mask it is the
sum of the squared error times the mask divided by
(channels of `pred` · mask sum + 1e-8). -/
theorem masked_mse_loss_optionally_masked (pred gt m : Tensor) :
    masked_mse_loss pred gt none
      = Val.fdiv (tSum (sqErr pred gt)) (Val.fin ((sqErr pred gt).numel : ℚ))
    ∧ (gt.shape = pred.shape →
        masked_mse_loss pred gt (some m)
          = Val.fdiv (tSum (binop Val.mul (sqErr pred gt) m))
              (((Val.fin ((pred.shape.getD 1 0 : Nat) : ℚ)).mul (tSum m)).add
                (Val.fin (1 / 100000000)))) := by
  refine ⟨rfl, fun h => ?_⟩
  simp only [masked_mse_loss, sqErr_shape_of_eq h]

theorem masked_mse_loss_optionally_masked_witness :
    ((⟨[1, 2], fun _ => Val.fin 1⟩ : Tensor).shape
        = (⟨[1, 2], fun _ => Val.fin 0⟩ : Tensor).shape)
    ∧ masked_mse_loss ⟨[1, 2], fun _ => Val.fin 0⟩ ⟨[1, 2], fun _ => Val.fin 1⟩
        (some ⟨[1, 1], fun _ => Val.fin 1⟩)
      = Val.fdiv
          (tSum (binop Val.mul
            (sqErr ⟨[1, 2], fun _ => Val.fin 0⟩ ⟨[1, 2], fun _ => Val.fin 1⟩)
            ⟨[1, 1], fun _ => Val.fin 1⟩))
          (((Val.fin (((([1, 2] : List Nat).getD 1 0 : Nat)) : ℚ)).mul
              (tSum ⟨[1, 1], fun _ => Val.fin 1⟩)).add (Val.fin (1 / 100000000))) :=
  ⟨rfl, (masked_mse_loss_optionally_masked _ _ _).2 rfl⟩

/-! ### C3: masked_l1_loss is optionally masked, resizing the mask -/

/-- C3. `masked_l1_loss` without a mask is the unweighted mean absolute
error; with a mask whose spatial size already matches it is the masked sum
formula with that mask; with a mask whose spatial size differs, the mask is
first resized (nearest interpolation) to `pred`'s spatial size — the
resized mask's spatial dimensions equal `pred`'s — and the same formula is
applied to the resized mask. -/
theorem masked_l1_loss_optionally_masked (pred gt m : Tensor) :
    masked_l1_loss pred gt none
      = Val.fdiv (tSum (absErr pred gt)) (Val.fin ((absErr pred gt).numel : ℚ))
    ∧ (gt.shape = pred.shape → last2 m.shape = last2 pred.shape →
        masked_l1_loss pred gt (some m)
          = Val.fdiv (tSum (binop Val.mul (absErr pred gt) m))
              (((Val.fin ((pred.shape.getD 1 0 : Nat) : ℚ)).mul (tSum m)).add
                (Val.fin (1 / 100000000))))
    ∧ (gt.shape = pred.shape → last2 m.shape ≠ last2 pred.shape →
        2 ≤ pred.shape.length →
        masked_l1_loss pred gt (some m)
          = Val.fdiv
              (tSum (binop Val.mul (absErr pred gt) (interpNearest m (last2 pred.shape))))
              (((Val.fin ((pred.shape.getD 1 0 : Nat) : ℚ)).mul
                  (tSum (interpNearest m (last2 pred.shape)))).add
                (Val.fin (1 / 100000000)))
          ∧ last2 (interpNearest m (last2 pred.shape)).shape = last2 pred.shape) := by
  refine ⟨rfl, fun h hsame => ?_, fun h hdiff hlen => ?_⟩
  · simp only [masked_l1_loss, absErr_shape_of_eq h, hsame, ne_eq, not_true_eq_false,
      if_false, ite_false]
  · refine ⟨?_, interpNearest_last2 m _ (last2_length hlen)⟩
    simp only [masked_l1_loss, absErr_shape_of_eq h, hdiff, ne_eq, not_false_eq_true,
      if_true, ite_true]

theorem masked_l1_loss_optionally_masked_witness :
    ((⟨[1, 1, 2, 2], fun _ => Val.fin 1⟩ : Tensor).shape
        = (⟨[1, 1, 2, 2], fun _ => Val.fin 0⟩ : Tensor).shape)
    ∧ last2 (⟨[1, 1, 4, 4], fun _ => Val.fin 1⟩ : Tensor).shape
        ≠ last2 (⟨[1, 1, 2, 2], fun _ => Val.fin 0⟩ : Tensor).shape
    ∧ 2 ≤ (⟨[1, 1, 2, 2], fun _ => Val.fin 0⟩ : Tensor).shape.length
    ∧ (masked_l1_loss ⟨[1, 1, 2, 2], fun _ => Val.fin 0⟩ ⟨[1, 1, 2, 2], fun _ => Val.fin 1⟩
          (some ⟨[1, 1, 4, 4], fun _ => Val.fin 1⟩)
        = Val.fdiv
            (tSum (binop Val.mul
              (absErr ⟨[1, 1, 2, 2], fun _ => Val.fin 0⟩ ⟨[1, 1, 2, 2], fun _ => Val.fin 1⟩)
              (interpNearest ⟨[1, 1, 4, 4], fun _ => Val.fin 1⟩
                (last2 (⟨[1, 1, 2, 2], fun _ => Val.fin 0⟩ : Tensor).shape))))
            (((Val.fin ((((⟨[1, 1, 2, 2], fun _ => Val.fin 0⟩ : Tensor).shape.getD 1 0 : Nat)) : ℚ)).mul
                (tSum (interpNearest ⟨[1, 1, 4, 4], fun _ => Val.fin 1⟩
                  (last2 (⟨[1, 1, 2, 2], fun _ => Val.fin 0⟩ : Tensor).shape)))).add
              (Val.fin (1 / 100000000)))
        ∧ last2 (interpNearest ⟨[1, 1, 4, 4], fun _ => Val.fin 1⟩
              (last2 (⟨[1, 1, 2, 2], fun _ => Val.fin 0⟩ : Tensor).shape)).shape
            = last2 (⟨[1, 1, 2, 2], fun _ => Val.fin 0⟩ : Tensor).shape) :=
  ⟨rfl, by decide, by decide,
    (masked_l1_loss_optionally_masked _ _ _).2.2 rfl (by decide) (by decide)⟩

/-! ### C1: VGGLoss.forward combines the pixel and feature L1 terms -/

/-- C1. `VGGLoss.forward` returns the masked L1 loss of the preprocessed
(channel-normalized) images plus the sum over feature levels `i` of
`weights[i]` times the masked L1 loss of the level-`i` feature maps, with
weights `[1/32, 1/16, 1/8, 1/4, 1]` for vgg19 and `[1/16, 1/8, 1/4, 1]`
for vgg16 (the pretrained feature stacks return 5 and 4 levels). -/
theorem vggloss_forward_combines (env : TorchEnv) (x y : Tensor) (mask : Option Tensor) :
    vggWeights "vgg19" = [1/32, 1/16, 1/8, 1/4, 1]
    ∧ vggWeights "vgg16" = [1/16, 1/8, 1/4, 1]
    ∧ ((env.vgg19feats (preprocess x)).length = 5 →
        VGGLoss.forward env "vgg19" x y mask 224 = vggLossSpec env "vgg19" x y mask 224)
    ∧ ((env.vgg16feats (preprocess x)).length = 4 →
        VGGLoss.forward env "vgg16" x y mask 224 = vggLossSpec env "vgg16" x y mask 224) := by
  have hf19 : vggFeats env "vgg19" = env.vgg19feats := by
    simp [vggFeats]
  have hf16 : vggFeats env "vgg16" = env.vgg16feats := by
    simp [vggFeats]
  refine ⟨by simp [vggWeights], by simp [vggWeights], fun h5 => ?_, fun h4 => ?_⟩
  · simp only [VGGLoss.forward, vggLossSpec, hf19, h5, List.range_succ, List.range_zero,
      List.nil_append, List.foldl_append, List.foldl_cons, List.foldl_nil, List.map_append,
      List.map_cons, List.map_nil, List.foldr_append, List.foldr_cons, List.foldr_nil,
      Val.add_fin_zero, Val.add_assoc]
  · simp only [VGGLoss.forward, vggLossSpec, hf16, h4, List.range_succ, List.range_zero,
      List.nil_append, List.foldl_append, List.foldl_cons, List.foldl_nil, List.map_append,
      List.map_cons, List.map_nil, List.foldr_append, List.foldr_cons, List.foldr_nil,
      Val.add_fin_zero, Val.add_assoc]

/-- A concrete environment for witnesses: identity resizing/cropping,
five-level (resp. four-level) feature stacks, and an LPIPS function with
the documented per-batch-element output shape. -/
def env0 : TorchEnv where
  crop_boundary := fun t _ => t
  lpipsFn := fun a _ => ⟨[a.shape.getD 0 0, 1, 1, 1], fun _ => Val.fin 0⟩
  interpBilinear := fun m _ => m
  interpArea := fun m _ => m
  vgg16feats := fun t => [t, t, t, t]
  vgg19feats := fun t => [t, t, t, t, t]

def x0 : Tensor := ⟨[1, 3, 1, 1], fun _ => Val.fin 0⟩

def y0 : Tensor := ⟨[1, 3, 1, 1], fun _ => Val.fin (1/2)⟩

theorem vggloss_forward_combines_witness :
    (env0.vgg19feats (preprocess x0)).length = 5
    ∧ VGGLoss.forward env0 "vgg19" x0 y0 none 224
        = vggLossSpec env0 "vgg19" x0 y0 none 224 :=
  ⟨rfl, (vggloss_forward_combines env0 x0 y0 none).2.2.1 rfl⟩

/-! ### C5: Criterion.__init__ loss-family dispatch -/

/-- C5. `Criterion.__init__` selects the VGG loss when `'vgg'` occurs in
`loss_mode`, LPIPS when it equals `'lpips'`, `masked_mse_loss` for
`'mse'`, `masked_l1_loss` for `'l1'`, and raises `NotImplementedError` on
every other mode. -/
theorem criterion_init_dispatch (args : Args) :
    (occursIn "vgg" args.loss_mode = true →
      Criterion.initChoice args = .ok (.vggc args.loss_mode))
    ∧ (args.loss_mode = "lpips" → Criterion.initChoice args = .ok .lpipsc)
    ∧ (args.loss_mode = "mse" → Criterion.initChoice args = .ok .msec)
    ∧ (args.loss_mode = "l1" → Criterion.initChoice args = .ok .l1c)
    ∧ (occursIn "vgg" args.loss_mode = false → args.loss_mode ≠ "lpips" →
        args.loss_mode ≠ "mse" → args.loss_mode ≠ "l1" →
        Criterion.initChoice args = .error ()) := by
  obtain ⟨lr, cr, lm⟩ := args
  refine ⟨fun h => ?_, fun h => ?_, fun h => ?_, fun h => ?_, fun h h1 h2 h3 => ?_⟩
  · simp only [Criterion.initChoice, h, if_true, ite_true]
  · subst h; simp [Criterion.initChoice, show occursIn "vgg" "lpips" = false by decide]
  · subst h; simp [Criterion.initChoice, show occursIn "vgg" "mse" = false by decide]
  · subst h; simp [Criterion.initChoice, show occursIn "vgg" "l1" = false by decide]
  · simp [Criterion.initChoice, h, h1, h2, h3]

theorem criterion_init_dispatch_witness :
    ((⟨0, 0, "mse"⟩ : Args).loss_mode = "mse"
      ∧ Criterion.initChoice ⟨0, 0, "mse"⟩ = .ok .msec)
    ∧ (occursIn "vgg" (⟨0, 0, "vgg19"⟩ : Args).loss_mode = true
      ∧ Criterion.initChoice ⟨0, 0, "vgg19"⟩ = .ok (.vggc "vgg19"))
    ∧ (occursIn "vgg" (⟨0, 0, "huber"⟩ : Args).loss_mode = false
      ∧ Criterion.initChoice ⟨0, 0, "huber"⟩ = .error ()) :=
  ⟨⟨rfl, (criterion_init_dispatch ⟨0, 0, "mse"⟩).2.2.1 rfl⟩,
   ⟨by decide, (criterion_init_dispatch ⟨0, 0, "vgg19"⟩).1 (by decide)⟩,
   ⟨by decide, (criterion_init_dispatch ⟨0, 0, "huber"⟩).2.2.2.2 (by decide)
      (by decide) (by decide) (by decide)⟩⟩

/-! ### C7: VGG feature extractors are pretrained and frozen -/

/-- C7. `Vgg16.__init__` and `Vgg19.__init__` (with `requires_grad` left
`False`) keep the pretrained slice weights unchanged and set
`requires_grad = False` on every registered parameter. -/
theorem vgg_pretrained_frozen (features : List (List Param)) :
    (Vgg16.params features).map Param.data = (Vgg16.sliceParams features).map Param.data
    ∧ (∀ p ∈ Vgg16.params features, p.requires_grad = false)
    ∧ (Vgg19.params features false).map Param.data
        = (Vgg19.sliceParams features).map Param.data
    ∧ (∀ p ∈ Vgg19.params features false, p.requires_grad = false) := by
  refine ⟨?_, fun p hp => ?_, ?_, fun p hp => ?_⟩
  · simp [Vgg16.params, setNoGrad]
  · simp only [Vgg16.params, setNoGrad, List.mem_map] at hp
    obtain ⟨q, _, rfl⟩ := hp
    rfl
  · simp [Vgg19.params, setNoGrad]
  · simp only [Vgg19.params, Bool.false_eq_true, if_false, ite_false, setNoGrad,
      List.mem_map] at hp
    obtain ⟨q, _, rfl⟩ := hp
    rfl

theorem vgg_pretrained_frozen_witness :
    ((⟨[1], false⟩ : Param) ∈ Vgg16.params [[⟨[1], true⟩]])
    ∧ (⟨[1], false⟩ : Param).requires_grad = false := by
  refine ⟨by decide, (vgg_pretrained_frozen [[⟨[1], true⟩]]).2.1 ⟨[1], false⟩ (by decide)⟩

/-! ### C4: Criterion.forward in 'lpips' mode -/

/-- C4. In `'lpips'` mode, `Criterion.forward` computes LPIPS on the
`2*x - 1`-mapped images and adds the masked L1 loss of the original-range
images exactly when `is_multi_view == 0`; otherwise the perceptual term is
returned alone.  (The hypothesis is that the LPIPS output has one element,
i.e. `.item()` succeeds.) -/
theorem criterion_forward_lpips_combination (env : TorchEnv) (args : Args)
    (lf : LossChoice) (pred target : Tensor) (mask : Option Tensor) (imv : Int)
    (rd log : List (String × Val)) (step : Nat)
    (hmode : args.loss_mode = "lpips")
    (hone : (env.lpipsFn (lpipsInput (cropBound env args pred))
        (lpipsInput (cropBound env args target))).numel = 1) :
    (Criterion.forward env args lf pred target mask imv rd log step).map Prod.fst
      = some (if imv = 0
          then binop Val.add
            (env.lpipsFn (lpipsInput (cropBound env args pred))
              (lpipsInput (cropBound env args target)))
            (scalarT (masked_l1_loss (cropBound env args pred) (cropBound env args target) mask))
          else env.lpipsFn (lpipsInput (cropBound env args pred))
            (lpipsInput (cropBound env args target))) := by
  by_cases h0 : imv = 0 <;>
    simp [Criterion.forward, hmode, item, hone, h0]

theorem criterion_forward_lpips_combination_witness :
    ((⟨0, 0, "lpips"⟩ : Args).loss_mode = "lpips"
      ∧ (env0.lpipsFn (lpipsInput (cropBound env0 ⟨0, 0, "lpips"⟩ x0))
          (lpipsInput (cropBound env0 ⟨0, 0, "lpips"⟩ y0))).numel = 1)
    ∧ (Criterion.forward env0 ⟨0, 0, "lpips"⟩ .lpipsc x0 y0 none 1 [] [] 0).map Prod.fst
      = some (if (1 : Int) = 0
          then binop Val.add
            (env0.lpipsFn (lpipsInput (cropBound env0 ⟨0, 0, "lpips"⟩ x0))
              (lpipsInput (cropBound env0 ⟨0, 0, "lpips"⟩ y0)))
            (scalarT (masked_l1_loss (cropBound env0 ⟨0, 0, "lpips"⟩ x0)
              (cropBound env0 ⟨0, 0, "lpips"⟩ y0) none))
          else env0.lpipsFn (lpipsInput (cropBound env0 ⟨0, 0, "lpips"⟩ x0))
            (lpipsInput (cropBound env0 ⟨0, 0, "lpips"⟩ y0))) :=
  ⟨⟨rfl, rfl⟩,
    criterion_forward_lpips_combination env0 ⟨0, 0, "lpips"⟩ .lpipsc x0 y0 none 1 [] [] 0
      rfl rfl⟩

/-! ### Lemmas about the log dictionary and init coherence -/

lemma initChoice_lpipsc {args : Args} (h : Criterion.initChoice args = .ok .lpipsc) :
    args.loss_mode = "lpips" := by
  unfold Criterion.initChoice at h
  split_ifs at h with h1 h2 h3 h4 <;> simp_all

lemma any_congr {α : Type} {p q : α → Bool} :
    ∀ (l : List α), (∀ a ∈ l, p a = q a) → l.any p = l.any q := by
  intro l h
  induction l with
  | nil => rfl
  | cons a t ih =>
    simp only [List.any_cons, h a (by simp)]
    rw [ih (fun b hb => h b (by simp [hb]))]

lemma dmem_dinsert_self (d : List (String × Val)) (k : String) (v : Val) :
    dmem k (dinsert d k v) = true := by
  unfold dmem dinsert
  by_cases h : d.any (fun p => p.1 = k)
  · simp only [h, if_true, ite_true, List.any_map]
    have hcong : ∀ p ∈ d,
        ((fun q : String × Val => decide (q.1 = k)) ∘
          (fun q : String × Val => if q.1 = k then (k, v) else q)) p
          = (fun q : String × Val => decide (q.1 = k)) p := by
      intro p _
      by_cases hp : p.1 = k <;> simp [hp]
    rw [any_congr d hcong]
    exact h
  · simp [h, List.any_append]

lemma dmem_dinsert_ne (d : List (String × Val)) {k k2 : String} (hne : k ≠ k2) (v : Val) :
    dmem k (dinsert d k2 v) = dmem k d := by
  unfold dmem dinsert
  by_cases h : d.any (fun p => p.1 = k2)
  · simp only [h, if_true, ite_true, List.any_map]
    apply any_congr
    intro p _
    by_cases hp : p.1 = k2
    · simp [hp, hne.symm, Ne.symm hne]
    · simp [hp]
  · simp [h, List.any_append, Ne.symm hne]

/-! ### C8: Criterion.forward mutates scalar_to_log only in 'lpips' mode -/

/-- C8. Starting from a log without the keys, a completed `Criterion.forward`
in `'lpips'` mode returns a log holding `'loss_perceptual'` and holding
`'loss_l1'` exactly when `is_multi_view == 0`; in every other mode the
returned log is the input unchanged. -/
theorem criterion_forward_log_effects (env : TorchEnv) (args : Args) (lf : LossChoice)
    (pred target : Tensor) (mask : Option Tensor) (imv : Int)
    (rd log : List (String × Val)) (step : Nat)
    (hl : dmem "loss_l1" log = false) :
    (args.loss_mode ≠ "lpips" → Criterion.initChoice args = .ok lf →
      (Criterion.forward env args lf pred target mask imv rd log step).map Prod.snd
        = some log)
    ∧ (args.loss_mode = "lpips" →
        ∀ out log2, Criterion.forward env args lf pred target mask imv rd log step
            = some (out, log2) →
          dmem "loss_perceptual" log2 = true
          ∧ (dmem "loss_l1" log2 = true ↔ imv = 0)) := by
  constructor
  · intro hne hinit
    cases lf with
    | lpipsc => exact absurd (initChoice_lpipsc hinit) hne
    | vggc model => simp [Criterion.forward, hne]
    | msec => simp [Criterion.forward, hne]
    | l1c => simp [Criterion.forward, hne]
  · intro hmode out log2 hfwd
    simp only [Criterion.forward, hmode, if_true, ite_true] at hfwd
    split at hfwd
    · exact absurd hfwd (by simp)
    · rename_i v hitem
      by_cases h0 : imv = 0
      · simp only [h0, if_true, ite_true, Option.some.injEq, Prod.mk.injEq] at hfwd
        obtain ⟨-, rfl⟩ := hfwd
        refine ⟨?_, ?_⟩
        · rw [dmem_dinsert_ne _ (by decide) _, dmem_dinsert_self]
        · simp [dmem_dinsert_self, h0]
      · simp only [h0, if_false, ite_false, Option.some.injEq, Prod.mk.injEq] at hfwd
        obtain ⟨-, rfl⟩ := hfwd
        refine ⟨dmem_dinsert_self _ _ _, ?_⟩
        rw [dmem_dinsert_ne _ (by decide) _, hl]
        simp [h0]

theorem criterion_forward_log_effects_witness :
    (dmem "loss_l1" [] = false
      ∧ (⟨0, 0, "mse"⟩ : Args).loss_mode ≠ "lpips"
      ∧ Criterion.initChoice ⟨0, 0, "mse"⟩ = .ok .msec)
    ∧ (Criterion.forward env0 ⟨0, 0, "mse"⟩ .msec x0 y0 none 0 [] [] 0).map Prod.snd
        = some [] :=
  ⟨⟨rfl, by decide, rfl⟩,
    (criterion_forward_log_effects env0 ⟨0, 0, "mse"⟩ .msec x0 y0 none 0 [] [] 0 rfl).1
      (by decide) rfl⟩

/-! ### C6: scalar-ness of the returned loss -/

lemma nat_prod_eq_one {l : List Nat} (h : l.prod = 1) : ∀ d ∈ l, d = 1 := by
  induction l with
  | nil => simp
  | cons a t ih =>
    simp only [List.prod_cons] at h
    have ha := Nat.eq_one_of_mul_eq_one_right h
    have ht := Nat.eq_one_of_mul_eq_one_left h
    intro d hd
    rcases List.mem_cons.mp hd with rfl | hdt
    · exact ha
    · exact ih ht d hdt

lemma zipWith_max_one_prod :
    ∀ s : List Nat, s.prod = 1 →
      (List.zipWith max s (List.replicate s.length 1)).prod = 1 := by
  intro s
  induction s with
  | nil => simp
  | cons a t ih =>
    intro h
    simp only [List.prod_cons] at h
    have ha := Nat.eq_one_of_mul_eq_one_right h
    have ht := Nat.eq_one_of_mul_eq_one_left h
    simp [List.replicate_succ, ha, ih ht]

lemma bcast_nil_prod {s : List Nat} (h : s.prod = 1) : (bcast s []).prod = 1 := by
  unfold bcast
  simp only [List.length_nil, Nat.max_zero, Nat.sub_self, List.replicate_zero,
    List.nil_append, Nat.sub_zero, List.append_nil]
  exact zipWith_max_one_prod s h

/-- C6, amended.  In every non-`'lpips'` mode `Criterion.forward` returns a
0-dimensional scalar tensor; in `'lpips'` mode the loss has the shape of
the LPIPS output (per batch element), `forward` completes only when that
output has exactly one element, and raises (at `.item()`) otherwise. -/
theorem criterion_forward_scalar_amended (env : TorchEnv) (args : Args)
    (lf : LossChoice) (pred target : Tensor) (mask : Option Tensor) (imv : Int)
    (rd log : List (String × Val)) (step : Nat)
    (hinit : Criterion.initChoice args = .ok lf) :
    (args.loss_mode ≠ "lpips" →
      ∃ v, Criterion.forward env args lf pred target mask imv rd log step
          = some (scalarT v, log))
    ∧ (args.loss_mode = "lpips" →
        ((env.lpipsFn (lpipsInput (cropBound env args pred))
            (lpipsInput (cropBound env args target))).numel = 1 →
          ∃ out log2, Criterion.forward env args lf pred target mask imv rd log step
              = some (out, log2) ∧ out.numel = 1)
        ∧ ((env.lpipsFn (lpipsInput (cropBound env args pred))
            (lpipsInput (cropBound env args target))).numel ≠ 1 →
          Criterion.forward env args lf pred target mask imv rd log step = none)) := by
  refine ⟨fun hne => ?_, fun hmode => ⟨fun hone => ?_, fun hnone => ?_⟩⟩
  · cases lf with
    | lpipsc => exact absurd (initChoice_lpipsc hinit) hne
    | vggc model =>
      exact ⟨VGGLoss.forward env model (cropBound env args pred) (cropBound env args target)
        mask 224, by simp [Criterion.forward, hne]⟩
    | msec =>
      exact ⟨masked_mse_loss (cropBound env args pred) (cropBound env args target) mask,
        by simp [Criterion.forward, hne]⟩
    | l1c =>
      exact ⟨masked_l1_loss (cropBound env args pred) (cropBound env args target) mask,
        by simp [Criterion.forward, hne]⟩
  · by_cases h0 : imv = 0
    · refine ⟨binop Val.add
          (env.lpipsFn (lpipsInput (cropBound env args pred))
            (lpipsInput (cropBound env args target)))
          (scalarT (masked_l1_loss (cropBound env args pred) (cropBound env args target) mask)),
        dinsert (dinsert log "loss_perceptual"
            ((env.lpipsFn (lpipsInput (cropBound env args pred))
              (lpipsInput (cropBound env args target))).data 0))
          "loss_l1" (masked_l1_loss (cropBound env args pred) (cropBound env args target) mask),
        by simp [Criterion.forward, hmode, item, hone, h0], ?_⟩
      exact bcast_nil_prod hone
    · exact ⟨env.lpipsFn (lpipsInput (cropBound env args pred))
          (lpipsInput (cropBound env args target)),
        dinsert log "loss_perceptual"
          ((env.lpipsFn (lpipsInput (cropBound env args pred))
            (lpipsInput (cropBound env args target))).data 0),
        by simp [Criterion.forward, hmode, item, hone, h0], hone⟩
  · simp [Criterion.forward, hmode, item, hnone]

theorem criterion_forward_scalar_amended_witness :
    (Criterion.initChoice ⟨0, 0, "l1"⟩ = .ok .l1c
      ∧ (⟨0, 0, "l1"⟩ : Args).loss_mode ≠ "lpips")
    ∧ ∃ v, Criterion.forward env0 ⟨0, 0, "l1"⟩ .l1c x0 y0 none 0 [] [] 0
        = some (scalarT v, []) :=
  ⟨⟨rfl, by decide⟩,
    (criterion_forward_scalar_amended env0 ⟨0, 0, "l1"⟩ .l1c x0 y0 none 0 [] [] 0 rfl).1
      (by decide)⟩

/-- A batch of two identical zero images. -/
def predB2 : Tensor := ⟨[2, 1, 1, 1], fun _ => Val.fin 0⟩

/-- C6, counterexample.  With the documented LPIPS output shape
`(N, 1, 1, 1)` and a batch of 2, `Criterion.forward` in `'lpips'` mode
returns no loss value at all: `.item()` raises, so no single scalar (nor
any loss) is returned. -/
theorem criterion_forward_scalar_counterexample :
    LPIPSLike env0.lpipsFn
    ∧ Criterion.initChoice ⟨0, 0, "lpips"⟩ = .ok .lpipsc
    ∧ Criterion.forward env0 ⟨0, 0, "lpips"⟩ .lpipsc predB2 predB2 none 1 [] [] 0
        = none :=
  ⟨fun _ _ => rfl, rfl, rfl⟩

/-! ### C10: identical prediction and ground truth -/

lemma isFin_exists {v : Val} (h : v.isFin = true) : ∃ q, v = Val.fin q := by
  cases v with
  | fin q => exact ⟨q, rfl⟩
  | nan => simp [Val.isFin] at h

lemma sqErr_self_data {x : Tensor} (hx : finData x) (i : Nat) :
    (sqErr x x).data i = Val.fin 0 := by
  obtain ⟨q, hq⟩ := isFin_exists
    (hx (linIdx x.shape (List.zipWith (fun d j => if d = 1 then 0 else j) x.shape
      ((multiIdx (bcast x.shape x.shape) i).drop
        ((multiIdx (bcast x.shape x.shape) i).length - x.shape.length)))))
  show ((readB x _).sub (readB x _)).mul ((readB x _).sub (readB x _)) = Val.fin 0
  show ((x.data _).sub (x.data _)).mul ((x.data _).sub (x.data _)) = Val.fin 0
  rw [hq]
  simp [Val.sub, Val.mul]

lemma absErr_self_data {x : Tensor} (hx : finData x) (i : Nat) :
    (absErr x x).data i = Val.fin 0 := by
  obtain ⟨q, hq⟩ := isFin_exists
    (hx (linIdx x.shape (List.zipWith (fun d j => if d = 1 then 0 else j) x.shape
      ((multiIdx (bcast x.shape x.shape) i).drop
        ((multiIdx (bcast x.shape x.shape) i).length - x.shape.length)))))
  show ((readB x _).sub (readB x _)).vabs = Val.fin 0
  show ((x.data _).sub (x.data _)).vabs = Val.fin 0
  rw [hq]
  simp [Val.sub, Val.vabs]

lemma mulmask_data_zero {A m : Tensor} (hA : ∀ i, A.data i = Val.fin 0)
    (hm : finData m) (i : Nat) : (binop Val.mul A m).data i = Val.fin 0 := by
  obtain ⟨q, hq⟩ := isFin_exists
    (hm (linIdx m.shape (List.zipWith (fun d j => if d = 1 then 0 else j) m.shape
      ((multiIdx (bcast A.shape m.shape) i).drop
        ((multiIdx (bcast A.shape m.shape) i).length - m.shape.length)))))
  show Val.mul (readB A _) (readB m _) = Val.fin 0
  show Val.mul (A.data _) (m.data _) = Val.fin 0
  rw [hA, hq]
  simp [Val.mul]

lemma tSum_zero {t : Tensor} (h : ∀ i, t.data i = Val.fin 0) : tSum t = Val.fin 0 := by
  unfold tSum valsOf
  have key : ∀ l : List Nat, (l.map t.data).foldl Val.add (Val.fin 0) = Val.fin 0 := by
    intro l
    induction l with
    | nil => rfl
    | cons a as ih =>
      simp only [List.map_cons, List.foldl_cons, h a, Val.add]
      rw [show (0 : ℚ) + 0 = 0 by norm_num]
      exact ih
  exact key _

lemma finData_interp {m : Tensor} (hm : finData m) (hw : List Nat) :
    finData (interpNearest m hw) := fun _ => hm _

/-- C10, amended.  With identical (finite) prediction and ground truth, the
losses are 0 whenever torch's mean is over at least one element (mask
`None`) or the denominator `ndim * mask.sum() + 1e-8` is nonzero (mask
given — in particular for every nonnegative mask); a mask summing to
exactly `-1e-8/ndim` gives a `0/0 = NaN` loss instead. -/
theorem identical_inputs_zero_loss_amended (x m : Tensor) (hx : finData x) :
    (0 < x.numel →
      masked_mse_loss x x none = Val.fin 0 ∧ masked_l1_loss x x none = Val.fin 0)
    ∧ (∀ s : ℚ, finData m → tSum m = Val.fin s →
        ((x.shape.getD 1 0 : Nat) : ℚ) * s + 1 / 100000000 ≠ 0 →
        masked_mse_loss x x (some m) = Val.fin 0)
    ∧ (∀ s : ℚ, finData m →
        tSum (if last2 m.shape ≠ last2 x.shape then interpNearest m (last2 x.shape) else m)
          = Val.fin s →
        ((x.shape.getD 1 0 : Nat) : ℚ) * s + 1 / 100000000 ≠ 0 →
        masked_l1_loss x x (some m) = Val.fin 0) := by
  have hshape : bcast x.shape x.shape = x.shape := bcast_self _
  have hnum : ((x.numel : ℚ)) ≠ 0 → Val.fdiv (Val.fin 0) (Val.fin (x.numel : ℚ)) = Val.fin 0 := by
    intro hne
    simp [Val.fdiv, hne]
  refine ⟨fun hpos => ⟨?_, ?_⟩, fun s hm hsum hden => ?_, fun s hm hsum hden => ?_⟩
  · show Val.fdiv (tSum (sqErr x x)) (Val.fin ((sqErr x x).numel : ℚ)) = Val.fin 0
    rw [tSum_zero (sqErr_self_data hx)]
    have hn : (sqErr x x).numel = x.numel := by
      show (bcast x.shape x.shape).prod = x.shape.prod
      rw [hshape]
    rw [hn]
    exact hnum (by exact_mod_cast Nat.pos_iff_ne_zero.mp hpos)
  · show Val.fdiv (tSum (absErr x x)) (Val.fin ((absErr x x).numel : ℚ)) = Val.fin 0
    rw [tSum_zero (absErr_self_data hx)]
    have hn : (absErr x x).numel = x.numel := by
      show (bcast x.shape x.shape).prod = x.shape.prod
      rw [hshape]
    rw [hn]
    exact hnum (by exact_mod_cast Nat.pos_iff_ne_zero.mp hpos)
  · have hnd : (sqErr x x).shape = x.shape := hshape
    show Val.fdiv (tSum (binop Val.mul (sqErr x x) m))
      (((Val.fin (((sqErr x x).shape.getD 1 0 : Nat) : ℚ)).mul (tSum m)).add
        (Val.fin (1 / 100000000))) = Val.fin 0
    rw [tSum_zero (mulmask_data_zero (sqErr_self_data hx) hm), hnd, hsum]
    show (if ((x.shape.getD 1 0 : Nat) : ℚ) * s + 1 / 100000000 = 0 then Val.nan
      else Val.fin (0 / (((x.shape.getD 1 0 : Nat) : ℚ) * s + 1 / 100000000))) = Val.fin 0
    rw [if_neg hden, zero_div]
  · have hnd : (absErr x x).shape = x.shape := hshape
    show Val.fdiv (tSum (binop Val.mul (absErr x x)
        (if last2 m.shape ≠ last2 x.shape then interpNearest m (last2 x.shape) else m)))
      (((Val.fin (((absErr x x).shape.getD 1 0 : Nat) : ℚ)).mul
          (tSum (if last2 m.shape ≠ last2 x.shape then interpNearest m (last2 x.shape) else m))).add
        (Val.fin (1 / 100000000))) = Val.fin 0
    by_cases hdiff : last2 m.shape ≠ last2 x.shape
    · rw [if_pos hdiff] at hsum ⊢
      rw [tSum_zero (mulmask_data_zero (absErr_self_data hx) (finData_interp hm _)),
        hnd, hsum]
      show (if ((x.shape.getD 1 0 : Nat) : ℚ) * s + 1 / 100000000 = 0 then Val.nan
        else Val.fin (0 / (((x.shape.getD 1 0 : Nat) : ℚ) * s + 1 / 100000000))) = Val.fin 0
      rw [if_neg hden, zero_div]
    · rw [if_neg hdiff] at hsum ⊢
      rw [tSum_zero (mulmask_data_zero (absErr_self_data hx) hm), hnd, hsum]
      show (if ((x.shape.getD 1 0 : Nat) : ℚ) * s + 1 / 100000000 = 0 then Val.nan
        else Val.fin (0 / (((x.shape.getD 1 0 : Nat) : ℚ) * s + 1 / 100000000))) = Val.fin 0
      rw [if_neg hden, zero_div]

/-- A 1×1×1×1 zero image. -/
def xc : Tensor := ⟨[1, 1, 1, 1], fun _ => Val.fin 0⟩

/-- A 1×1×1×1 nonnegative-looking mask whose single entry is `-1e-8`. -/
def mc : Tensor := ⟨[1, 1, 1, 1], fun _ => Val.fin (-(1 / 100000000))⟩

/-- A 1×1×1×1 all-ones mask. -/
def m1 : Tensor := ⟨[1, 1, 1, 1], fun _ => Val.fin 1⟩

theorem identical_inputs_zero_loss_amended_witness :
    (finData xc ∧ finData m1 ∧ 0 < xc.numel ∧ tSum m1 = Val.fin 1
      ∧ ((xc.shape.getD 1 0 : Nat) : ℚ) * 1 + 1 / 100000000 ≠ 0)
    ∧ masked_mse_loss xc xc none = Val.fin 0
    ∧ masked_mse_loss xc xc (some m1) = Val.fin 0
    ∧ masked_l1_loss xc xc (some m1) = Val.fin 0 := by
  have hfx : finData xc := fun _ => rfl
  have hfm : finData m1 := fun _ => rfl
  have hsum : tSum m1 = Val.fin 1 := by
    show Val.fin ((0 : ℚ) + 1) = Val.fin 1
    norm_num
  have hden : ((xc.shape.getD 1 0 : Nat) : ℚ) * 1 + 1 / 100000000 ≠ 0 := by
    show ((1 : Nat) : ℚ) * 1 + 1 / 100000000 ≠ 0
    norm_num
  have hl2 : tSum (if last2 m1.shape ≠ last2 xc.shape
      then interpNearest m1 (last2 xc.shape) else m1) = Val.fin 1 := by
    rw [if_neg (by simp [m1, xc, last2])]
    exact hsum
  refine ⟨⟨hfx, hfm, by decide, hsum, hden⟩,
    ((identical_inputs_zero_loss_amended xc m1 hfx).1 (by decide)).1,
    (identical_inputs_zero_loss_amended xc m1 hfx).2.1 1 hfm hsum hden,
    (identical_inputs_zero_loss_amended xc m1 hfx).2.2 1 hfm hl2 hden⟩

/-- C10, counterexample.  With `pred = gt` but a mask whose sum is exactly
`-1e-8`, the denominator `ndim * mask.sum() + 1e-8` is exactly zero and
both masked losses evaluate to `0/0 = NaN`, not 0. -/
theorem identical_inputs_zero_loss_counterexample :
    masked_l1_loss xc xc (some mc) = Val.nan
    ∧ masked_mse_loss xc xc (some mc) = Val.nan
    ∧ Val.nan ≠ Val.fin 0 := by
  have hfx : finData xc := fun _ => rfl
  have hfm : finData mc := fun _ => rfl
  have hsum : tSum mc = Val.fin (-(1 / 100000000)) := by
    show Val.fin ((0 : ℚ) + -(1 / 100000000)) = Val.fin (-(1 / 100000000))
    norm_num
  have hshape : bcast xc.shape xc.shape = xc.shape := bcast_self _
  have hd : Val.fin ((((1 : Nat) : ℚ)) * (-(1 / 100000000)) + 1 / 100000000) = Val.fin 0 := by
    norm_num
  refine ⟨?_, ?_, by simp⟩
  · show Val.fdiv (tSum (binop Val.mul (absErr xc xc)
        (if last2 mc.shape ≠ last2 xc.shape then interpNearest mc (last2 xc.shape) else mc)))
      (((Val.fin (((absErr xc xc).shape.getD 1 0 : Nat) : ℚ)).mul
          (tSum (if last2 mc.shape ≠ last2 xc.shape
            then interpNearest mc (last2 xc.shape) else mc))).add
        (Val.fin (1 / 100000000))) = Val.nan
    rw [if_neg (by simp [mc, xc, last2])]
    rw [tSum_zero (mulmask_data_zero (absErr_self_data hfx) hfm)]
    have hnd : (absErr xc xc).shape = xc.shape := hshape
    rw [hnd, hsum]
    show Val.fdiv (Val.fin 0)
      (Val.fin ((((1 : Nat) : ℚ)) * (-(1 / 100000000)) + 1 / 100000000)) = Val.nan
    rw [hd]
    simp [Val.fdiv]
  · show Val.fdiv (tSum (binop Val.mul (sqErr xc xc) mc))
      (((Val.fin (((sqErr xc xc).shape.getD 1 0 : Nat) : ℚ)).mul (tSum mc)).add
        (Val.fin (1 / 100000000))) = Val.nan
    rw [tSum_zero (mulmask_data_zero (sqErr_self_data hfx) hfm)]
    have hnd : (sqErr xc xc).shape = xc.shape := hshape
    rw [hnd, hsum]
    show Val.fdiv (Val.fin 0)
      (Val.fin ((((1 : Nat) : ℚ)) * (-(1 / 100000000)) + 1 / 100000000)) = Val.nan
    rw [hd]
    simp [Val.fdiv]

/-! ### C9: normalize_minus_one_to_one -/

lemma map_congr {α β : Type} (f g : α → β) :
    ∀ l : List α, (∀ a ∈ l, f a = g a) → l.map f = l.map g := by
  intro l h
  induction l with
  | nil => rfl
  | cons a t ih =>
    simp only [List.map_cons, h a (by simp)]
    rw [ih (fun b hb => h b (by simp [hb]))]

lemma fin_qval {v : Val} (h : v.isFin = true) : Val.fin v.qval = v := by
  cases v with
  | fin q => rfl
  | nan => simp [Val.isFin] at h

lemma foldl_vmin_fin : ∀ (l : List ℚ) (a : ℚ),
    (l.map Val.fin).foldl Val.vmin (Val.fin a) = Val.fin (l.foldl min a) := by
  intro l
  induction l with
  | nil => intro a; rfl
  | cons q t ih =>
    intro a
    show (t.map Val.fin).foldl Val.vmin (Val.fin (min a q)) = Val.fin (t.foldl min (min a q))
    exact ih (min a q)

lemma foldl_vmax_fin : ∀ (l : List ℚ) (a : ℚ),
    (l.map Val.fin).foldl Val.vmax (Val.fin a) = Val.fin (l.foldl max a) := by
  intro l
  induction l with
  | nil => intro a; rfl
  | cons q t ih =>
    intro a
    show (t.map Val.fin).foldl Val.vmax (Val.fin (max a q)) = Val.fin (t.foldl max (max a q))
    exact ih (max a q)

lemma min_affine {c : ℚ} (hc : 0 ≤ c) (b p q : ℚ) :
    min (c * p + b) (c * q + b) = c * min p q + b := by
  rcases le_total p q with h | h
  · rw [min_eq_left (add_le_add_right (mul_le_mul_of_nonneg_left h hc) b), min_eq_left h]
  · rw [min_eq_right (add_le_add_right (mul_le_mul_of_nonneg_left h hc) b), min_eq_right h]

lemma max_affine {c : ℚ} (hc : 0 ≤ c) (b p q : ℚ) :
    max (c * p + b) (c * q + b) = c * max p q + b := by
  rcases le_total p q with h | h
  · rw [max_eq_right (add_le_add_right (mul_le_mul_of_nonneg_left h hc) b), max_eq_right h]
  · rw [max_eq_left (add_le_add_right (mul_le_mul_of_nonneg_left h hc) b), max_eq_left h]

lemma foldl_min_affine {c : ℚ} (hc : 0 ≤ c) (b : ℚ) :
    ∀ (l : List ℚ) (a : ℚ),
      (l.map fun q => c * q + b).foldl min (c * a + b) = c * l.foldl min a + b := by
  intro l
  induction l with
  | nil => intro a; rfl
  | cons q t ih =>
    intro a
    show (t.map fun r => c * r + b).foldl min (min (c * a + b) (c * q + b))
      = c * t.foldl min (min a q) + b
    rw [min_affine hc]
    exact ih (min a q)

lemma foldl_max_affine {c : ℚ} (hc : 0 ≤ c) (b : ℚ) :
    ∀ (l : List ℚ) (a : ℚ),
      (l.map fun q => c * q + b).foldl max (c * a + b) = c * l.foldl max a + b := by
  intro l
  induction l with
  | nil => intro a; rfl
  | cons q t ih =>
    intro a
    show (t.map fun r => c * r + b).foldl max (max (c * a + b) (c * q + b))
      = c * t.foldl max (max a q) + b
    rw [max_affine hc]
    exact ih (max a q)

lemma foldl_min_const (a : ℚ) : ∀ l : List ℚ, (∀ b ∈ l, b = a) → l.foldl min a = a := by
  intro l
  induction l with
  | nil => intro; rfl
  | cons c t ih =>
    intro h
    have hc : c = a := h c (by simp)
    show t.foldl min (min a c) = a
    rw [hc, min_self]
    exact ih (fun b hb => h b (by simp [hb]))

lemma foldl_max_const (a : ℚ) : ∀ l : List ℚ, (∀ b ∈ l, b = a) → l.foldl max a = a := by
  intro l
  induction l with
  | nil => intro; rfl
  | cons c t ih =>
    intro h
    have hc : c = a := h c (by simp)
    show t.foldl max (max a c) = a
    rw [hc, max_self]
    exact ih (fun b hb => h b (by simp [hb]))

/-- The rational entries of a finite tensor, in flat order. -/
def qvalsOf (x : Tensor) : List ℚ := (List.range x.numel).map fun i => (x.data i).qval

lemma valsOf_eq_map_fin {x : Tensor} (hx : finData x) :
    valsOf x = (qvalsOf x).map Val.fin := by
  unfold valsOf qvalsOf
  rw [List.map_map]
  exact map_congr _ _ _ (fun i _ => (fin_qval (hx i)).symm)

lemma qvalsOf_cons {x : Tensor} (hpos : 0 < x.numel) :
    qvalsOf x = (x.data 0).qval
      :: (List.range (x.numel - 1)).map fun i => (x.data (i + 1)).qval := by
  obtain ⟨n, hn⟩ : ∃ n, x.numel = n + 1 := ⟨x.numel - 1, by omega⟩
  unfold qvalsOf
  rw [hn, List.range_succ_eq_map, List.map_cons, List.map_map]
  simp only [Nat.add_sub_cancel]
  rfl

lemma tMin_eq {x : Tensor} (hx : finData x) (hpos : 0 < x.numel) :
    tMin x = Val.fin (((List.range (x.numel - 1)).map fun i => (x.data (i + 1)).qval).foldl
      min (x.data 0).qval) := by
  unfold tMin
  rw [valsOf_eq_map_fin hx, qvalsOf_cons hpos, List.map_cons]
  exact foldl_vmin_fin _ _

lemma tMax_eq {x : Tensor} (hx : finData x) (hpos : 0 < x.numel) :
    tMax x = Val.fin (((List.range (x.numel - 1)).map fun i => (x.data (i + 1)).qval).foldl
      max (x.data 0).qval) := by
  unfold tMax
  rw [valsOf_eq_map_fin hx, qvalsOf_cons hpos, List.map_cons]
  exact foldl_vmax_fin _ _

/-- C9.  When the maximum entry strictly exceeds the minimum,
`normalize_minus_one_to_one` is an affine rescaling with positive slope
whose minimum entry is `-1` and whose maximum entry is `1`; for a constant
tensor the denominator `x_max - x_min` is zero and every entry of the
result is a non-finite float. -/
theorem normalize_minus_one_to_one_spec (x : Tensor) (hpos : 0 < x.numel)
    (hx : finData x) :
    (∀ mnq mxq : ℚ, tMin x = Val.fin mnq → tMax x = Val.fin mxq → mnq < mxq →
      (∃ a b : ℚ, 0 < a ∧ ∀ i, (normalize_minus_one_to_one x).data i
          = Val.fin (a * (x.data i).qval + b))
      ∧ tMin (normalize_minus_one_to_one x) = Val.fin (-1)
      ∧ tMax (normalize_minus_one_to_one x) = Val.fin 1)
    ∧ ((∀ i j : Nat, x.data i = x.data j) →
      (tMax x).sub (tMin x) = Val.fin 0
      ∧ ∀ i, (normalize_minus_one_to_one x).data i = Val.nan) := by
  constructor
  · intro mnq mxq hmn hmx hlt
    have hd : mxq - mnq ≠ 0 := sub_ne_zero.mpr (ne_of_gt hlt)
    have ha : 0 < 2 / (mxq - mnq) := div_pos two_pos (sub_pos.mpr hlt)
    have hpt : ∀ i, (normalize_minus_one_to_one x).data i
        = Val.fin (2 / (mxq - mnq) * (x.data i).qval + (-(2 * mnq / (mxq - mnq)) - 1)) := by
      intro i
      show (((Val.fin 2).mul ((x.data i).sub (tMin x))).fdiv ((tMax x).sub (tMin x))).sub
          (Val.fin 1) = _
      rw [hmn, hmx]
      obtain ⟨qi, hqi⟩ := isFin_exists (hx i)
      rw [hqi]
      show (if mxq - mnq = 0 then Val.nan
        else Val.fin (2 * (qi - mnq) / (mxq - mnq))).sub (Val.fin 1)
          = Val.fin (2 / (mxq - mnq) * qi + (-(2 * mnq / (mxq - mnq)) - 1))
      rw [if_neg hd]
      show Val.fin (2 * (qi - mnq) / (mxq - mnq) - 1)
        = Val.fin (2 / (mxq - mnq) * qi + (-(2 * mnq / (mxq - mnq)) - 1))
      congr 1
      field_simp
      ring
    have hfinN : finData (normalize_minus_one_to_one x) := by
      intro i
      rw [hpt i]
      rfl
    have hposN : 0 < (normalize_minus_one_to_one x).numel := hpos
    have hdataN : ∀ i, ((normalize_minus_one_to_one x).data i).qval
        = 2 / (mxq - mnq) * (x.data i).qval + (-(2 * mnq / (mxq - mnq)) - 1) := by
      intro i
      rw [hpt i]
      rfl
    have hmapN : ((List.range ((normalize_minus_one_to_one x).numel - 1)).map
          fun i => ((normalize_minus_one_to_one x).data (i + 1)).qval)
        = ((List.range (x.numel - 1)).map fun i => (x.data (i + 1)).qval).map
            fun q => 2 / (mxq - mnq) * q + (-(2 * mnq / (mxq - mnq)) - 1) := by
      rw [List.map_map]
      exact map_congr _ _ _ (fun i _ => hdataN (i + 1))
    have hmn2 : ((List.range (x.numel - 1)).map fun i => (x.data (i + 1)).qval).foldl
        min (x.data 0).qval = mnq := by
      have := (tMin_eq hx hpos).symm.trans hmn
      exact Val.fin.inj this
    have hmx2 : ((List.range (x.numel - 1)).map fun i => (x.data (i + 1)).qval).foldl
        max (x.data 0).qval = mxq := by
      have := (tMax_eq hx hpos).symm.trans hmx
      exact Val.fin.inj this
    refine ⟨⟨2 / (mxq - mnq), -(2 * mnq / (mxq - mnq)) - 1, ha, hpt⟩, ?_, ?_⟩
    · rw [tMin_eq hfinN hposN, hmapN, hdataN 0, foldl_min_affine (le_of_lt ha), hmn2]
      congr 1
      field_simp
      ring
    · rw [tMax_eq hfinN hposN, hmapN, hdataN 0, foldl_max_affine (le_of_lt ha), hmx2]
      congr 1
      field_simp
      ring
  · intro hconst
    obtain ⟨q, hq⟩ := isFin_exists (hx 0)
    have hall : ∀ i, x.data i = Val.fin q := fun i => by rw [hconst i 0, hq]
    have hqv : ∀ i, (x.data i).qval = q := fun i => by rw [hall i]; rfl
    have hmn : tMin x = Val.fin q := by
      rw [tMin_eq hx hpos, hqv 0]
      congr 1
      apply foldl_min_const
      intro b hb
      obtain ⟨i, _, rfl⟩ := List.mem_map.mp hb
      exact hqv (i + 1)
    have hmx : tMax x = Val.fin q := by
      rw [tMax_eq hx hpos, hqv 0]
      congr 1
      apply foldl_max_const
      intro b hb
      obtain ⟨i, _, rfl⟩ := List.mem_map.mp hb
      exact hqv (i + 1)
    constructor
    · rw [hmn, hmx]
      show Val.fin (q - q) = Val.fin 0
      rw [sub_self]
    · intro i
      show (((Val.fin 2).mul ((x.data i).sub (tMin x))).fdiv ((tMax x).sub (tMin x))).sub
          (Val.fin 1) = Val.nan
      rw [hmn, hmx, hall i]
      show (if q - q = 0 then Val.nan
        else Val.fin (2 * (q - q) / (q - q))).sub (Val.fin 1) = Val.nan
      rw [if_pos (sub_self q)]
      rfl

/-- A two-entry tensor with distinct values 0 and 1. -/
def xvar : Tensor := ⟨[2], fun i => if i = 0 then Val.fin 0 else Val.fin 1⟩

/-- A constant two-entry tensor. -/
def xconst : Tensor := ⟨[2], fun _ => Val.fin 5⟩

theorem normalize_minus_one_to_one_spec_witness :
    (0 < xvar.numel ∧ finData xvar ∧ tMin xvar = Val.fin 0 ∧ tMax xvar = Val.fin 1
      ∧ (0 : ℚ) < 1
      ∧ tMin (normalize_minus_one_to_one xvar) = Val.fin (-1)
      ∧ tMax (normalize_minus_one_to_one xvar) = Val.fin 1)
    ∧ (0 < xconst.numel ∧ finData xconst ∧ (∀ i j : Nat, xconst.data i = xconst.data j)
      ∧ (tMax xconst).sub (tMin xconst) = Val.fin 0
      ∧ (normalize_minus_one_to_one xconst).data 0 = Val.nan) := by
  have hfv : finData xvar := by
    intro i
    show (if i = 0 then Val.fin 0 else Val.fin 1).isFin = true
    split <;> rfl
  have hfc : finData xconst := fun _ => rfl
  have hmnv : tMin xvar = Val.fin 0 := by
    show Val.vmin (Val.fin 0) (Val.fin 1) = Val.fin 0
    show Val.fin (min 0 1) = Val.fin 0
    norm_num
  have hmxv : tMax xvar = Val.fin 1 := by
    show Val.vmax (Val.fin 0) (Val.fin 1) = Val.fin 1
    show Val.fin (max 0 1) = Val.fin 1
    norm_num
  have hcst : ∀ i j : Nat, xconst.data i = xconst.data j := fun _ _ => rfl
  have h1 := (normalize_minus_one_to_one_spec xvar (by decide) hfv).1 0 1 hmnv hmxv
    (by norm_num)
  have h2 := (normalize_minus_one_to_one_spec xconst (by decide) hfc).2 hcst
  exact ⟨⟨by decide, hfv, hmnv, hmxv, by norm_num, h1.2.1, h1.2.2⟩,
    ⟨by decide, hfc, hcst, h2.1, h2.2 0⟩⟩

end Crit
